import Mathlib

/-!
Shallow embedding of `src/neo4j_mcp_installer/installer.py` (the artifact
resolution, verification and atomic-install pipeline) and proofs about the
spec's claims over it.

Modelling conventions:
* Byte strings are Lean `String`s; file contents are a small inductive
  `Content` (raw bytes, a parsed tar.gz, a parsed zip, a parsed JSON release
  object), so the archive/JSON readers can be expressed as total functions.
* The filesystem is an association list from path strings to contents;
  directories are not modelled (`mkdir` calls are no-ops), nor are permission
  bits (`_make_executable`).
* The network and the host are a `World` record: an environment lookup, an
  HTTP oracle from URL to response, the host OS/machine strings, and a
  SHA-256 digest oracle (the hash function itself is uninterpreted; the
  pipeline only ever compares its output strings).
* Python exceptions become an `InstallerError` inductive with one
  constructor per distinct raise site (the source raises `RuntimeError`
  with a formatted message everywhere; the message is kept verbatim).
* Every file write performed through the temp-then-rename idiom is expressed
  as a small list of primitive file operations (`FsOp`), so interruption at
  any point of the sequence can be analysed as a step relation.
-/

namespace Installer

/-- Python truthiness of an `Optional[str]`: `None` and `""` are falsy. -/
def pyTruthy : Option String → Bool
  | none => false
  | some s => !(s == "")

/-- `str.lower()` over the ASCII range (every string this installer
lowercases — machine strings, hex digests — is ASCII). -/
def pyLower (s : String) : String := String.mk (s.data.map Char.toLower)

/-- `s.startswith(pre)`. -/
def strStartsWith (s pre : String) : Bool := pre.data.isPrefixOf s.data

/-- `s[n:]`. -/
def strDrop (s : String) (n : Nat) : String := String.mk (s.data.drop n)

/-- `str.strip()`: drop leading and trailing whitespace. -/
def pyStrip (s : String) : String :=
  String.mk (((s.data.dropWhile Char.isWhitespace).reverse.dropWhile Char.isWhitespace).reverse)

/-- Accumulating worker for `str.splitlines()`: line boundaries are `\n`,
`\r` and `\r\n`; a trailing boundary does not open a final empty line.  The
flag records that the previous character was a line-closing `\r`, so an
immediately following `\n` is part of the same boundary. -/
def pySplitlinesAux : Bool → List Char → List Char → List String
  | _, [], acc => if acc.isEmpty then [] else [String.mk acc.reverse]
  | afterCR, c :: rest, acc =>
      if afterCR && c = '\n' then pySplitlinesAux false rest acc
      else if c = '\n' then String.mk acc.reverse :: pySplitlinesAux false rest []
      else if c = '\r' then String.mk acc.reverse :: pySplitlinesAux true rest []
      else pySplitlinesAux false rest (c :: acc)

/-- `str.splitlines()`. -/
def pySplitlines (s : String) : List String := pySplitlinesAux false s.data []

/-- Accumulating worker for `str.split()` with no arguments. -/
def pySplitWsChars : List Char → List Char → List String
  | [], acc => if acc.isEmpty then [] else [String.mk acc.reverse]
  | c :: rest, acc =>
      if c.isWhitespace then
        if acc.isEmpty then pySplitWsChars rest []
        else String.mk acc.reverse :: pySplitWsChars rest []
      else pySplitWsChars rest (c :: acc)

/-- `str.split()` with no arguments: split on whitespace runs, dropping
empty pieces. -/
def pySplitWs (s : String) : List String := pySplitWsChars s.data []

/-- Split on `/`, keeping empty components. -/
def splitOnSlash : List Char → List Char → List String
  | [], acc => [String.mk acc.reverse]
  | c :: rest, acc =>
      if c = '/' then String.mk acc.reverse :: splitOnSlash rest []
      else splitOnSlash rest (c :: acc)

/-- `pathlib.PurePosixPath(s).name`: the final path component; empty
components (repeated or trailing slashes) and `.` components are dropped by
pathlib's parsing, and the empty path has name `""`. -/
def pyPathName (s : String) : String :=
  (((splitOnSlash s.data []).filter (fun c => !(c == "") && !(c == "."))).getLast?).getD ""

/-- `p.with_suffix(p.suffix + ".tmp")` as used by the installer: for every
file name the pipeline builds (no name ends in a dot) this appends `".tmp"`
to the path, because Python replaces the final suffix with the same suffix
plus `".tmp"`, and appends when there is no suffix. -/
def withTmpSuffix (p : String) : String := p ++ ".tmp"

/-- One constructor per distinct raise site of `installer.py`.  The source
raises `RuntimeError` (or lets a `urllib` error propagate) everywhere; the
spec's §7 taxonomy names these sites, and the formatted message is carried
verbatim where the source builds one. -/
inductive InstallerError where
  | unsupportedPlatform (msg : String)
  | configurationError (msg : String)
  | releaseLookupError (msg : String)
  | jsonDecodeError (url : String)
  | httpError (code : Nat) (url : String)
  | urlError (url : String)
  | checksumMismatch (msg : String)
  | binaryNotFoundInArchive (msg : String)
  | unsupportedArchiveFormat (msg : String)
  | archiveOpenError (path : String)
  | fileNotFound (path : String)
  deriving DecidableEq

/-- `Target` dataclass (installer.py lines 28-40). -/
structure Target where
  os_name : String
  arch : String
  archive_ext : String
  deriving DecidableEq

/-- `Target.asset_name` (installer.py lines 34-36). -/
def Target.asset_name (t : Target) : String :=
  "neo4j-mcp_" ++ t.os_name ++ "_" ++ t.arch ++ t.archive_ext

/-- `Target.extracted_binary_name` (installer.py lines 38-40). -/
def Target.extracted_binary_name (t : Target) : String :=
  if t.os_name = "Windows" then "neo4j-mcp.exe" else "neo4j-mcp"

/-- `detect_target()` (installer.py lines 43-61), as a function of the host
facts `platform.system()` and `platform.machine()`.  Note the source
lowercases the machine string before the group comparisons and reports the
raw machine string in the failure message. -/
def detect_target (sysname machineRaw : String) : Except InstallerError Target :=
  let machine := pyLower machineRaw
  if !(sysname == "Darwin" || sysname == "Linux" || sysname == "Windows") then
    .error (.unsupportedPlatform ("Unsupported OS: " ++ sysname))
  else
    let archive_ext := if sysname == "Windows" then ".zip" else ".tar.gz"
    if machine == "arm64" || machine == "aarch64" then
      .ok ⟨sysname, "arm64", archive_ext⟩
    else if machine == "x86_64" || machine == "amd64" then
      .ok ⟨sysname, "x86_64", archive_ext⟩
    else if machine == "i386" || machine == "i686" || machine == "x86" then
      .ok ⟨sysname, "i386", archive_ext⟩
    else
      .error (.unsupportedPlatform ("Unsupported architecture: " ++ machineRaw))

/-- The arch-tag groups exactly as the spec's §4.1 lists them. -/
def archGroups : List (List String × String) :=
  [(["arm64", "aarch64"], "arm64"),
   (["x86_64", "amd64"], "x86_64"),
   (["i386", "i686", "x86"], "i386")]

/-- `detect()` as the spec §4.1 / claim C7 state it, amended only in that the
machine string is compared after lowercasing (which is what the code does;
the claim as frozen compares the raw machine string). -/
def detect_target_spec (sysname machineRaw : String) : Except InstallerError Target :=
  if sysname == "Darwin" || sysname == "Linux" || sysname == "Windows" then
    match archGroups.find? (fun g => g.1.contains (pyLower machineRaw)) with
    | some g => .ok ⟨sysname, g.2, if sysname == "Windows" then ".zip" else ".tar.gz"⟩
    | none => .error (.unsupportedPlatform ("Unsupported architecture: " ++ machineRaw))
  else
    .error (.unsupportedPlatform ("Unsupported OS: " ++ sysname))

/-- Path join; all paths the installer builds are joined with a single
separator. -/
def joinPath (dir name : String) : String := dir ++ "/" ++ name

/-- `versions_dir()` (installer.py line 72), as a function of the
`user_data_dir` root. -/
def versions_dir (root : String) : String := joinPath root "versions"

/-- `version_dir(version)` (installer.py line 76). -/
def version_dir (root version : String) : String := joinPath (versions_dir root) version

/-- `archive_path(version, target)` (installer.py line 80). -/
def archive_path (root version : String) (t : Target) : String :=
  joinPath (version_dir root version) t.asset_name

/-- `extracted_path(version, target)` (installer.py line 84). -/
def extracted_path (root version : String) (t : Target) : String :=
  joinPath (version_dir root version) t.extracted_binary_name

/-- `default_install_dir()` (installer.py lines 88-94), as a function of
`os.name == "nt"`, the environment, and the home directory. -/
def default_install_dir (osIsNt : Bool) (env : String → Option String) (home : String) :
    Except InstallerError String :=
  if osIsNt then
    match env "LOCALAPPDATA" with
    | some la =>
        if la == "" then
          .error (.configurationError
            "LOCALAPPDATA is not set; cannot determine install dir on Windows.")
        else
          .ok (joinPath (joinPath la "neo4j-mcp") "bin")
    | none =>
        .error (.configurationError
          "LOCALAPPDATA is not set; cannot determine install dir on Windows.")
  else
    .ok (joinPath (joinPath home ".local") "bin")

/-- One member of an archive: its stored name, whether it is a regular file
(`tarfile.TarInfo.isfile()`; for zip, directory members are the names ending
in `/` and carry empty data), and its byte content. -/
structure ArchiveEntry where
  name : String
  isFile : Bool
  data : String
  deriving DecidableEq

/-- Contents a file on disk (or an HTTP response body) can hold.  Raw bytes
are a string; archives and the GitHub release JSON are carried in parsed
form so the readers (`tarfile.open`, `zipfile.ZipFile`, `json.loads`) are
total functions on them. -/
inductive Content where
  | bytes (data : String)
  | tarGz (entries : List ArchiveEntry)
  | zipArchive (entries : List ArchiveEntry)
  | jsonTag (tag : Option String)
  deriving DecidableEq

/-- `bytes.decode("utf-8", errors="replace")`: in this model bodies meant to
be text are served as `.bytes`, and the decode never fails. -/
def contentText : Content → String
  | .bytes s => s
  | _ => ""

/-- The filesystem: an association list from absolute path to content. -/
abbrev FS := List (String × Content)

/-- Content at a path, if any. -/
def fsGet (fs : FS) (p : String) : Option Content :=
  match fs with
  | [] => none
  | (q, c) :: rest => if q == p then some c else fsGet rest p

/-- Delete every binding of a path (`Path.unlink`, no-op when absent). -/
def fsRemove (fs : FS) (p : String) : FS :=
  fs.filter (fun e => e.1 != p)

/-- Write a path (create or overwrite). -/
def fsSet (fs : FS) (p : String) (c : Content) : FS :=
  (p, c) :: fsRemove fs p

/-- Primitive file-system effects of the installer: whole-payload write,
unlink-if-present, and atomic rename over the destination (`Path.replace`). -/
inductive FsOp where
  | write (p : String) (c : Content)
  | remove (p : String)
  | rename (src dst : String)
  deriving DecidableEq

/-- Big-step effect of one completed operation. -/
def applyOp (fs : FS) : FsOp → FS
  | .write p c => fsSet fs p c
  | .remove p => fsRemove fs p
  | .rename src dst =>
      match fsGet fs src with
      | some c => fsSet (fsRemove fs src) dst c
      | none => fs

/-- Effect of a completed operation sequence. -/
def runOps (fs : FS) (ops : List FsOp) : FS := ops.foldl applyOp fs

/-- The three file-system effects of the source's temp-then-replace idiom:
write the full payload to the `.tmp` sibling, unlink the destination if it
exists, rename the `.tmp` file onto the destination.  This is the effect
sequence of installer.py lines 195-200 and 211-216 (extraction) and lines
291-298 (installation; there the temp path `install_dir / (final_name +
".tmp")` is the same string as `withTmpSuffix` of the final path). -/
def atomic_replace_ops (dest : String) (c : Content) : List FsOp :=
  [.write (withTmpSuffix dest) c, .remove dest, .rename (withTmpSuffix dest) dest]

/-- States a file can pass through while a whole-payload write is in flight:
any byte-prefix of the payload may have been flushed.  Non-byte contents
stand for already-parsed artifacts and are never written by the modelled op
sequences with anything but `.bytes`. -/
def byteStages (c : Content) : List Content :=
  match c with
  | .bytes s => (List.range (s.data.length + 1)).map (fun i => Content.bytes (String.mk (s.data.take i)))
  | c => [c]

/-- States observable if execution stops during `op`: a write may have
flushed any byte-prefix of its payload; unlink and rename are atomic, so
they are either not yet done or done. -/
def opStates (fs : FS) : FsOp → List FS
  | .write p c => (byteStages c).map (fun c' => fsSet fs p c')
  | .remove p => [fs, fsRemove fs p]
  | .rename src dst => [fs, applyOp fs (.rename src dst)]

/-- All file-system states observable when execution of the op sequence is
interrupted at any point: before any op, inside any op, between ops, or
after the last op. -/
def interruptedStates (fs : FS) : List FsOp → List FS
  | [] => [fs]
  | op :: rest => fs :: (opStates fs op ++ interruptedStates (applyOp fs op) rest)

/-- `_normalize_version_for_checksums` (installer.py lines 138-140). -/
def _normalize_version_for_checksums (version : String) : String :=
  if strStartsWith version "v" then strDrop version 1 else version

/-- The checksums-manifest URL built by `_download_checksums_text`
(installer.py lines 144-145): the path segment keeps the original version,
the filename uses the normalized one. -/
def checksums_url (base_url version : String) : String :=
  base_url ++ "/" ++ version ++ "/neo4j-mcp_" ++
    _normalize_version_for_checksums version ++ "_checksums.txt"

/-- The stripped, non-blank lines of the manifest (installer.py line 164). -/
def stripLines (text : String) : List String :=
  ((pySplitlines text).map pyStrip).filter (fun l => !(l == ""))

/-- The block-format scan of `_expected_sha_from_checksums` (installer.py
lines 165-167): walk adjacent line pairs, return the value after the
`sha256:` prefix of the successor of the first line equal to the filename. -/
def blockScan (filename : String) : List String → Option String
  | a :: b :: rest =>
      if a == filename && strStartsWith b "sha256:" then
        some (pyLower (pyStrip (strDrop b 7)))
      else
        blockScan filename (b :: rest)
  | _ => none

/-- A hexadecimal digit as matched by the source's regex `[0-9a-fA-F]`. -/
def isHexChar (c : Char) : Bool :=
  c.isDigit || (('a' ≤ c) && (c ≤ 'f')) || (('A' ≤ c) && (c ≤ 'F'))

/-- `re.fullmatch(r"[0-9a-fA-F]{64}", s)` as a predicate. -/
def isHex64 (s : String) : Bool :=
  s.length == 64 && s.data.all isHexChar

/-- The legacy-format line test of `_expected_sha_from_checksums`
(installer.py lines 170-172): at least two whitespace-separated tokens, the
last equal to the filename, the first exactly 64 hex characters. -/
def legacyLineMatches (filename ln : String) : Bool :=
  let parts := pySplitWs ln
  decide (2 ≤ parts.length) && (parts.getLast?.getD "" == filename)
    && isHex64 (parts.head?.getD "")

/-- `_expected_sha_from_checksums` (installer.py lines 157-175). -/
def _expected_sha_from_checksums (checksums_text filename : String) : Option String :=
  let lines := stripLines checksums_text
  match blockScan filename lines with
  | some h => some h
  | none =>
      match lines.find? (legacyLineMatches filename) with
      | some ln => some (pyLower ((pySplitWs ln).head?.getD ""))
      | none => none

/-- `extractDigest` as the spec §4.5 / claim C6 state it: among the trimmed
non-blank manifest lines, the first line exactly equal to the filename whose
next (non-blank) line starts with `sha256:` yields the lowercased value
after the prefix; otherwise the first legacy line `<64-hex> <filename>`
yields its first token lowercased; otherwise absent. -/
def extract_digest_spec (manifestText filename : String) : Option String :=
  let lines := stripLines manifestText
  match (lines.zip lines.tail).find?
      (fun p => p.1 == filename && strStartsWith p.2 "sha256:") with
  | some p => some (pyLower (pyStrip (strDrop p.2 7)))
  | none =>
      match lines.find? (legacyLineMatches filename) with
      | some ln => some (pyLower ((pySplitWs ln).head?.getD ""))
      | none => none

/-- Outcome of one HTTP GET: a body, an `HTTPError` with a status code, or a
URL-level connectivity failure (`URLError`). -/
inductive HttpResp where
  | ok (body : Content)
  | httpError (code : Nat)
  | urlError
  deriving DecidableEq

/-- The ambient host: OS facts read by `platform`, `os.name == "nt"`, the
home directory, the `user_data_dir("neo4j-mcp")` root, the process
environment, the network as an oracle from URL to response, and the SHA-256
digest oracle standing for `hashlib.sha256` (the pipeline only compares its
output strings, never inspects them). -/
structure World where
  os_name : String
  machine : String
  osIsNt : Bool
  home : String
  dataRoot : String
  env : String → Option String
  http : String → HttpResp
  sha256 : Content → String

/-- `GITHUB_API_LATEST(repo)` (installer.py line 25). -/
def github_api_latest (repo : String) : String :=
  "https://api.github.com/repos/" ++ repo ++ "/releases/latest"

/-- `latest_version(repo)` (installer.py lines 129-135): GET the latest
release JSON, extract `tag_name`; a missing or falsy tag raises, a body that
is not a JSON object fails the decode. -/
def latest_version (w : World) (repo : String) : Except InstallerError String :=
  let url := github_api_latest repo
  match w.http url with
  | .ok (.jsonTag (some tag)) =>
      if tag == "" then
        .error (.releaseLookupError
          "Could not determine latest release tag_name from GitHub API.")
      else
        .ok tag
  | .ok (.jsonTag none) =>
      .error (.releaseLookupError
        "Could not determine latest release tag_name from GitHub API.")
  | .ok _ => .error (.jsonDecodeError url)
  | .httpError code => .error (.httpError code url)
  | .urlError => .error (.urlError url)

/-- Version resolution of `install_binary` (installer.py lines 241-245):
a truthy `NEO4J_MCP_VERSION` environment value replaces the argument; then a
falsy version (absent or empty) queries the latest release.  Also returns
the list of URLs requested. -/
def resolve_version (w : World) (version : Option String) (repo : String) :
    Except InstallerError String × List String :=
  let env_version := w.env "NEO4J_MCP_VERSION"
  let version := if pyTruthy env_version then env_version else version
  if pyTruthy version then
    (.ok (version.getD ""), [])
  else
    (latest_version w repo, [github_api_latest repo])

/-- `_download_checksums_text(version, base_url)` (installer.py lines
143-154): 404/403 and URL-level errors yield `None`, other HTTP errors
propagate, success yields the body decoded as UTF-8. -/
def _download_checksums_text (w : World) (version base_url : String) :
    Except InstallerError (Option String) :=
  let url := checksums_url base_url version
  match w.http url with
  | .ok b => .ok (some (contentText b))
  | .httpError code =>
      if code == 404 || code == 403 then .ok none
      else .error (.httpError code url)
  | .urlError => .ok none

/-- `_sha256_file(path)` (installer.py lines 114-119): digest of the file's
content via the world's digest oracle; a missing file raises. -/
def _sha256_file (w : World) (fs : FS) (path : String) : Except InstallerError String :=
  match fsGet fs path with
  | some c => .ok (w.sha256 c)
  | none => .error (.fileNotFound path)

/-- `_extract_archive(archive, out_bin, target)` (installer.py lines
178-221).  The tar branch selects among regular-file members only; the zip
branch matches over `zf.namelist()`, i.e. over every entry name including
directory entries, and `zf.read` of the matched name returns that entry's
(possibly empty) data.  The selected payload is placed at `out_bin` via the
temp-then-replace op sequence.  `_make_executable` (permissions) and
directory creation are not modelled. -/
def _extract_archive (fs : FS) (archive out_bin : String) (target : Target) :
    Except InstallerError FS :=
  let wanted := target.extracted_binary_name
  if target.archive_ext == ".tar.gz" then
    match fsGet fs archive with
    | some (.tarGz entries) =>
        let members := entries.filter (fun m => m.isFile)
        let candidate :=
          match members.find? (fun m => pyPathName m.name == wanted) with
          | some m => some m
          | none =>
              members.find? (fun m =>
                pyPathName m.name == "neo4j-mcp" || pyPathName m.name == "neo4j-mcp.exe")
        match candidate with
        | none =>
            .error (.binaryNotFoundInArchive
              ("Could not find neo4j-mcp binary inside " ++ pyPathName archive))
        | some m => .ok (runOps fs (atomic_replace_ops out_bin (.bytes m.data)))
    | _ => .error (.archiveOpenError archive)
  else if target.archive_ext == ".zip" then
    match fsGet fs archive with
    | some (.zipArchive entries) =>
        let names := entries.map (fun e => e.name)
        let mtch :=
          match names.find? (fun n => pyPathName n == wanted) with
          | some n => some n
          | none =>
              names.find? (fun n =>
                pyPathName n == "neo4j-mcp.exe" || pyPathName n == "neo4j-mcp")
        match mtch with
        | none =>
            .error (.binaryNotFoundInArchive
              ("Could not find neo4j-mcp binary inside " ++ pyPathName archive))
        | some n =>
            let data := ((entries.find? (fun e => e.name == n)).map (fun e => e.data)).getD ""
            .ok (runOps fs (atomic_replace_ops out_bin (.bytes data)))
    | _ => .error (.archiveOpenError archive)
  else
    .error (.unsupportedArchiveFormat ("Unsupported archive type: " ++ target.archive_ext))

/-- Payload selection as the spec §4.6 / claim C3 state it: prefer the entry
whose base filename equals the wanted name, else fall back to a literal
`neo4j-mcp` / `neo4j-mcp.exe` base filename. -/
def spec_pick (wanted : String) (pool : List ArchiveEntry) : Option ArchiveEntry :=
  (pool.find? (fun e => pyPathName e.name == wanted)).orElse
    (fun _ =>
      pool.find? (fun e =>
        pyPathName e.name == "neo4j-mcp" || pyPathName e.name == "neo4j-mcp.exe"))

/-- `extract` as claim C3 states it, amended only in that for zip archives
the selection pool is every entry of the archive (directory entries
included), not just the regular-file entries — the code's zip branch matches
over `zf.namelist()` without an is-file filter. -/
def _extract_archive_spec (fs : FS) (archive out_bin : String) (target : Target) :
    Except InstallerError FS :=
  if target.archive_ext == ".tar.gz" then
    match fsGet fs archive with
    | some (.tarGz entries) =>
        match spec_pick target.extracted_binary_name (entries.filter (fun m => m.isFile)) with
        | none =>
            .error (.binaryNotFoundInArchive
              ("Could not find neo4j-mcp binary inside " ++ pyPathName archive))
        | some e => .ok (runOps fs (atomic_replace_ops out_bin (.bytes e.data)))
    | _ => .error (.archiveOpenError archive)
  else if target.archive_ext == ".zip" then
    match fsGet fs archive with
    | some (.zipArchive entries) =>
        match spec_pick target.extracted_binary_name entries with
        | none =>
            .error (.binaryNotFoundInArchive
              ("Could not find neo4j-mcp binary inside " ++ pyPathName archive))
        | some e => .ok (runOps fs (atomic_replace_ops out_bin (.bytes e.data)))
    | _ => .error (.archiveOpenError archive)
  else
    .error (.unsupportedArchiveFormat ("Unsupported archive type: " ++ target.archive_ext))

/-- The checksum-mismatch message exactly as installer.py lines 273-279
format it. -/
def checksum_mismatch_msg (expected actual asset url : String) : String :=
  "Checksum verification failed.\n" ++
  "Expected: " ++ expected ++ "\n" ++
  "Actual:   " ++ actual ++ "\n" ++
  "Asset:    " ++ asset ++ "\n" ++
  "URL:      " ++ url

/-- Lines 254-286 of installer.py, entered when the cache misses or a
re-download is forced: remove a stale temp archive, download the asset to
the temp path, optionally verify it against the checksums manifest, place
the archive at its canonical path (unlink-then-rename), and extract the
binary into the version cache.  Returns the outcome, the filesystem, and the
URLs requested in order. -/
def download_and_extract (w : World) (fs : FS) (target : Target)
    (version base_url : String) (verify : Bool) (extracted : String) :
    Except InstallerError Unit × FS × List String :=
  let asset := target.asset_name
  let url := base_url ++ "/" ++ version ++ "/" ++ asset
  let archive := archive_path w.dataRoot version target
  let tmp_archive := withTmpSuffix archive
  let fs1 := fsRemove fs tmp_archive
  match w.http url with
  | .httpError code => (.error (.httpError code url), fs1, [url])
  | .urlError => (.error (.urlError url), fs1, [url])
  | .ok body =>
    let fs2 := fsSet fs1 tmp_archive body
    let finish : FS → List String → Except InstallerError Unit × FS × List String :=
      fun fsIn calls =>
        let fsP := applyOp (applyOp fsIn (.remove archive)) (.rename tmp_archive archive)
        match _extract_archive fsP archive extracted target with
        | .error e => (.error e, fsP, calls)
        | .ok fsE => (.ok (), fsE, calls)
    if verify && !(pyTruthy (w.env "NEO4J_MCP_SKIP_VERIFY")) then
      let curl := checksums_url base_url version
      match _download_checksums_text w version base_url with
      | .error e => (.error e, fs2, [url, curl])
      | .ok checksums =>
        let expectedOpt :=
          if pyTruthy checksums then
            _expected_sha_from_checksums (checksums.getD "") asset
          else
            none
        if pyTruthy expectedOpt then
          let expected := expectedOpt.getD ""
          match _sha256_file w fs2 tmp_archive with
          | .error e => (.error e, fs2, [url, curl])
          | .ok actual =>
              if pyLower actual != pyLower expected then
                (.error (.checksumMismatch (checksum_mismatch_msg expected actual asset url)),
                 fsRemove fs2 tmp_archive, [url, curl])
              else
                finish fs2 [url, curl]
        else
          finish fs2 [url, curl]
    else
      finish fs2 [url]

/-- Lines 288-300 of installer.py: copy the versioned extracted binary to a
temp sibling in the install directory, then unlink-then-rename onto the
final name; returns `(final_path, version, extracted)`. -/
def install_phase (fs : FS) (idir : String) (target : Target)
    (version extracted : String) (calls : List String) :
    Except InstallerError (String × String × String) × FS × List String :=
  let final_name := target.extracted_binary_name
  let final_path := joinPath idir final_name
  match fsGet fs extracted with
  | none => (.error (.fileNotFound extracted), fs, calls)
  | some c =>
      (.ok (final_path, version, extracted),
       runOps fs (atomic_replace_ops final_path c), calls)

/-- `install_binary` (installer.py lines 224-300): resolve the target and
the version, resolve the install directory, reuse the cached extracted
binary unless absent or a re-download is forced (downloading, verifying and
extracting in that case), then install atomically.  Returns the outcome
(`(final_path, version, extracted)` on success), the final filesystem, and
the URLs requested in order. -/
def install_binary (w : World) (fs0 : FS) (version : Option String)
    (repo base_url : String) (verify force_download : Bool)
    (install_dir : Option String) :
    Except InstallerError (String × String × String) × FS × List String :=
  match detect_target w.os_name w.machine with
  | .error e => (.error e, fs0, [])
  | .ok target =>
  match resolve_version w version repo with
  | (.error e, calls) => (.error e, fs0, calls)
  | (.ok ver, calls0) =>
  match (match install_dir with
         | some d => Except.ok d
         | none => default_install_dir w.osIsNt w.env w.home) with
  | .error e => (.error e, fs0, calls0)
  | .ok idir =>
  let extracted := extracted_path w.dataRoot ver target
  if !(fsGet fs0 extracted).isSome || force_download then
    match download_and_extract w fs0 target ver base_url verify extracted with
    | (.error e, fs, dcalls) => (.error e, fs, calls0 ++ dcalls)
    | (.ok _, fs, dcalls) => install_phase fs idir target ver extracted (calls0 ++ dcalls)
  else
    install_phase fs0 idir target ver extracted calls0

/-! ## Helper lemmas about the filesystem model -/

theorem fsGet_set_self (fs : FS) (p : String) (c : Content) :
    fsGet (fsSet fs p c) p = some c := by
  simp [fsSet, fsGet]

theorem fsGet_remove_ne (fs : FS) (p q : String) (h : q ≠ p) :
    fsGet (fsRemove fs p) q = fsGet fs q := by
  induction fs with
  | nil => rfl
  | cons e rest ih =>
      by_cases he : e.1 = p
      · have h1 : (e.1 != p) = false := by simp [he]
        have h2 : (e.1 == q) = false := by
          simp [he]
          exact fun hq => h (hq.symm ▸ rfl)
        cases e with
        | mk a b => simp_all [fsRemove, fsGet, List.filter]
      · have h1 : (e.1 != p) = true := by simp [he]
        cases e with
        | mk a b =>
            simp only [fsRemove, List.filter] at *
            simp only [h1]
            by_cases ha : a = q
            · simp [fsGet, ha]
            · simp [fsGet, ha, ih]

theorem fsGet_remove_self (fs : FS) (p : String) :
    fsGet (fsRemove fs p) p = none := by
  induction fs with
  | nil => rfl
  | cons e rest ih =>
      cases e with
      | mk a b =>
          by_cases ha : a = p
          · simp [fsRemove, List.filter, ha] at *
            exact ih
          · simp only [fsRemove, List.filter] at *
            have h1 : (a != p) = true := by simp [ha]
            simp [h1, fsGet, ha, ih]

theorem fsGet_set_ne (fs : FS) (p q : String) (c : Content) (h : q ≠ p) :
    fsGet (fsSet fs p c) q = fsGet fs q := by
  have h1 : (p == q) = false := by
    simp
    exact fun hq => h (hq.symm ▸ rfl)
  simp [fsSet, fsGet, h1, fsGet_remove_ne fs p q h]

theorem fsRemove_idem (fs : FS) (p : String) :
    fsRemove (fsRemove fs p) p = fsRemove fs p := by
  simp [fsRemove, List.filter_filter]

theorem fsRemove_set_self (fs : FS) (p : String) (c : Content) :
    fsRemove (fsSet fs p c) p = fsRemove fs p := by
  simp [fsSet, fsRemove, List.filter_cons, List.filter_filter]

theorem withTmpSuffix_ne (p : String) : withTmpSuffix p ≠ p := by
  intro h
  have hl : (withTmpSuffix p).length = p.length + 4 := by
    simp [withTmpSuffix]
    rfl
  rw [h] at hl
  omega

/-! ## Helper lemmas about the temp-then-replace op sequence -/

theorem runOps_atomic_replace (fs : FS) (dest : String) (c : Content) :
    runOps fs (atomic_replace_ops dest c) =
      fsSet (fsRemove (fsRemove (fsSet fs (withTmpSuffix dest) c) dest) (withTmpSuffix dest))
        dest c := by
  have hget : fsGet (fsRemove (fsSet fs (withTmpSuffix dest) c) dest) (withTmpSuffix dest) =
      some c := by
    rw [fsGet_remove_ne _ _ _ (withTmpSuffix_ne dest), fsGet_set_self]
  simp [runOps, atomic_replace_ops, applyOp, hget]

theorem fsGet_runOps_atomic_self (fs : FS) (dest : String) (c : Content) :
    fsGet (runOps fs (atomic_replace_ops dest c)) dest = some c := by
  rw [runOps_atomic_replace, fsGet_set_self]

theorem fsGet_runOps_atomic_ne (fs : FS) (dest : String) (c : Content) (p : String)
    (h1 : p ≠ dest) (h2 : p ≠ withTmpSuffix dest) :
    fsGet (runOps fs (atomic_replace_ops dest c)) p = fsGet fs p := by
  rw [runOps_atomic_replace, fsGet_set_ne _ _ _ _ h1, fsGet_remove_ne _ _ _ h2,
    fsGet_remove_ne _ _ _ h1, fsGet_set_ne _ _ _ _ h2]

/-! ## Helper lemmas about list searching -/

theorem find?_pred_congr {α : Type} (p q : α → Bool) (h : ∀ a, p a = q a) :
    ∀ l : List α, l.find? p = l.find? q
  | [] => rfl
  | a :: l => by
      rw [List.find?_cons, List.find?_cons, h a]
      cases q a
      · exact find?_pred_congr p q h l
      · rfl

theorem find?_map_name (p : String → Bool) (entries : List ArchiveEntry) :
    (entries.map (fun e => e.name)).find? p =
      (entries.find? (fun e => p e.name)).map (fun e => e.name) := by
  rw [List.find?_map]
  rfl

theorem find?_by_name (p : String → Bool) :
    ∀ (entries : List ArchiveEntry) (e0 : ArchiveEntry),
      entries.find? (fun e => p e.name) = some e0 →
      entries.find? (fun e => e.name == e0.name) = some e0
  | [], e0, h => by simp [List.find?] at h
  | e :: rest, e0, h => by
      cases hp : p e.name with
      | true =>
          rw [List.find?_cons_of_pos _ (by simp [hp])] at h
          cases h
          simp
      | false =>
          rw [List.find?_cons_of_neg _ (by simp [hp])] at h
          have hp0 : p e0.name = true := by
            have h2 := List.find?_some h
            simpa using h2
          have hne : (e.name == e0.name) = false := by
            cases hh : e.name == e0.name
            · rfl
            · have heq : e.name = e0.name := eq_of_beq hh
              rw [heq, hp0] at hp
              exact hp
          rw [List.find?_cons_of_neg _ (by simp [hne])]
          exact find?_by_name p rest e0 h

theorem blockScan_eq_zip_find (f : String) :
    ∀ l : List String,
      blockScan f l =
        ((l.zip l.tail).find? (fun p => p.1 == f && strStartsWith p.2 "sha256:")).map
          (fun p => pyLower (pyStrip (strDrop p.2 7)))
  | [] => by simp [blockScan]
  | [a] => by simp [blockScan]
  | a :: b :: rest => by
      rw [blockScan]
      have hz : ((a :: b :: rest).zip (a :: b :: rest).tail) =
          (a, b) :: ((b :: rest).zip (b :: rest).tail) := by
        simp [List.zip]
      rw [hz, List.find?_cons]
      cases h : (a == f && strStartsWith b "sha256:")
      · simp only [h]
        exact blockScan_eq_zip_find f (b :: rest)
      · simp only [h]
        rfl

/-! ## Helper lemmas about version resolution and the pipeline -/

theorem pyTruthy_some_of_ne (v : String) (h : v ≠ "") : pyTruthy (some v) = true := by
  simp [pyTruthy, h]

theorem resolve_version_env_falsy_some (w : World) (v repo : String)
    (hEnv : pyTruthy (w.env "NEO4J_MCP_VERSION") = false) (hv : v ≠ "") :
    resolve_version w (some v) repo = (.ok v, []) := by
  simp [resolve_version, hEnv, pyTruthy_some_of_ne v hv]

/-! ## Claim C9 -/

/-- C9: for every version string, the checksums-manifest URL is
`<base-url>/<version>/neo4j-mcp_<v>_checksums.txt` where `<v>` is the version
with a single leading `v` removed if present (unchanged otherwise), while the
path segment before the filename keeps the original version string. -/
theorem c9_checksums_url_shape (version base_url : String) :
    (strStartsWith version "v" = true →
      checksums_url base_url version =
        base_url ++ "/" ++ version ++ "/neo4j-mcp_" ++ strDrop version 1 ++ "_checksums.txt") ∧
    (strStartsWith version "v" = false →
      checksums_url base_url version =
        base_url ++ "/" ++ version ++ "/neo4j-mcp_" ++ version ++ "_checksums.txt") := by
  constructor <;> intro h <;>
    simp [checksums_url, _normalize_version_for_checksums, h]

/-- Witness for C9 at a `v`-prefixed and an unprefixed version. -/
theorem c9_checksums_url_shape_witness :
    checksums_url "https://x" "v1.2.0" = "https://x/v1.2.0/neo4j-mcp_1.2.0_checksums.txt" ∧
    checksums_url "https://x" "1.2.0" = "https://x/1.2.0/neo4j-mcp_1.2.0_checksums.txt" :=
  ⟨((c9_checksums_url_shape "v1.2.0" "https://x").1 (by decide)).trans rfl,
   ((c9_checksums_url_shape "1.2.0" "https://x").2 (by decide)).trans rfl⟩

/-! ## Claim C4 -/

/-- C4 as frozen is false on the code: with the environment override unset
and an explicit version argument equal to the empty string supplied,
`install_binary` does not use the explicit argument — `if not version`
treats `""` as absent — and instead queries and installs the latest release
(its first network request is the latest-release API call). -/
theorem c4_counterexample :
    install_binary
        ⟨"Linux", "x86_64", false, "/h", "/d", (fun _ => none),
         (fun u =>
            if u == "https://api.github.com/repos/neo4j/mcp/releases/latest" then
              .ok (.jsonTag (some "v9.9.9"))
            else if u == "B/v9.9.9/neo4j-mcp_Linux_x86_64.tar.gz" then
              .ok (.tarGz [⟨"neo4j-mcp", true, "BITS"⟩])
            else .httpError 404),
         (fun _ => "0f00")⟩
        [] (some "") "neo4j/mcp" "B" true false (some "/bin") =
      (.ok ("/bin/neo4j-mcp", "v9.9.9", "/d/versions/v9.9.9/neo4j-mcp"),
       [("/bin/neo4j-mcp", Content.bytes "BITS"),
        ("/d/versions/v9.9.9/neo4j-mcp", Content.bytes "BITS"),
        ("/d/versions/v9.9.9/neo4j-mcp_Linux_x86_64.tar.gz",
         Content.tarGz [⟨"neo4j-mcp", true, "BITS"⟩])],
       ["https://api.github.com/repos/neo4j/mcp/releases/latest",
        "B/v9.9.9/neo4j-mcp_Linux_x86_64.tar.gz",
        "B/v9.9.9/neo4j-mcp_9.9.9_checksums.txt"]) ∧
    ("v9.9.9" : String) ≠ "" := by
  exact ⟨rfl, by decide⟩

/-- C4 amended: a non-empty `NEO4J_MCP_VERSION` environment value is used
even over an explicit argument; otherwise a **non-empty** explicit version
argument is used; otherwise (argument absent or empty) the latest release
tag is queried from the release host. -/
theorem c4_version_precedence (w : World) (version : Option String) (repo : String) :
    (∀ ev, w.env "NEO4J_MCP_VERSION" = some ev → ev ≠ "" →
      resolve_version w version repo = (.ok ev, [])) ∧
    (pyTruthy (w.env "NEO4J_MCP_VERSION") = false → ∀ v, version = some v → v ≠ "" →
      resolve_version w version repo = (.ok v, [])) ∧
    (pyTruthy (w.env "NEO4J_MCP_VERSION") = false → pyTruthy version = false →
      resolve_version w version repo =
        (latest_version w repo, [github_api_latest repo])) := by
  refine ⟨?_, ?_, ?_⟩
  · intro ev hev hne
    simp [resolve_version, hev, pyTruthy_some_of_ne ev hne]
  · intro henv v hv hne
    subst hv
    simp [resolve_version, henv, pyTruthy_some_of_ne v hne]
  · intro henv hver
    simp [resolve_version, henv, hver]

/-- Witness for C4: the environment override beats an explicit argument, the
explicit argument is used when the override is unset, and an absent version
queries the latest tag. -/
theorem c4_version_precedence_witness :
    resolve_version
        ⟨"Linux", "x86_64", false, "/h", "/d",
         (fun k => if k == "NEO4J_MCP_VERSION" then some "v2.0.0" else none),
         (fun _ => HttpResp.ok (.jsonTag (some "v9.9.9"))), fun _ => "h"⟩
        (some "v1.0.0") "neo4j/mcp" = (.ok "v2.0.0", []) ∧
    resolve_version
        ⟨"Linux", "x86_64", false, "/h", "/d", (fun _ => none),
         (fun _ => HttpResp.ok (.jsonTag (some "v9.9.9"))), fun _ => "h"⟩
        (some "v1.0.0") "neo4j/mcp" = (.ok "v1.0.0", []) ∧
    resolve_version
        ⟨"Linux", "x86_64", false, "/h", "/d", (fun _ => none),
         (fun _ => HttpResp.ok (.jsonTag (some "v9.9.9"))), fun _ => "h"⟩
        none "neo4j/mcp" =
      (.ok "v9.9.9", ["https://api.github.com/repos/neo4j/mcp/releases/latest"]) := by
  refine ⟨?_, ?_, ?_⟩
  · exact (c4_version_precedence
      ⟨"Linux", "x86_64", false, "/h", "/d",
       (fun k => if k == "NEO4J_MCP_VERSION" then some "v2.0.0" else none),
       (fun _ => HttpResp.ok (.jsonTag (some "v9.9.9"))), fun _ => "h"⟩
      (some "v1.0.0") "neo4j/mcp").1 "v2.0.0" rfl (by decide)
  · exact (c4_version_precedence
      ⟨"Linux", "x86_64", false, "/h", "/d", (fun _ => none),
       (fun _ => HttpResp.ok (.jsonTag (some "v9.9.9"))), fun _ => "h"⟩
      (some "v1.0.0") "neo4j/mcp").2.1 rfl "v1.0.0" rfl (by decide)
  · exact ((c4_version_precedence
      ⟨"Linux", "x86_64", false, "/h", "/d", (fun _ => none),
       (fun _ => HttpResp.ok (.jsonTag (some "v9.9.9"))), fun _ => "h"⟩
      none "neo4j/mcp").2.2 rfl rfl).trans rfl

/-! ## Claim C5 -/

/-- C5: the manifest fetch returns absent (verification is then skipped)
exactly when the HTTP response is a 404 or 403 or a URL-level connectivity
error; every other HTTP-layer error propagates to the caller; on success it
returns the response body decoded as UTF-8. -/
theorem c5_download_checksums_characterization (w : World) (version base_url : String) :
    (_download_checksums_text w version base_url = .ok none ↔
      (w.http (checksums_url base_url version) = .httpError 404 ∨
       w.http (checksums_url base_url version) = .httpError 403 ∨
       w.http (checksums_url base_url version) = .urlError)) ∧
    (∀ b, w.http (checksums_url base_url version) = .ok b →
      _download_checksums_text w version base_url = .ok (some (contentText b))) ∧
    (∀ code, w.http (checksums_url base_url version) = .httpError code →
      code ≠ 404 → code ≠ 403 →
      _download_checksums_text w version base_url =
        .error (.httpError code (checksums_url base_url version))) := by
  refine ⟨?_, ?_, ?_⟩
  · cases h : w.http (checksums_url base_url version) with
    | ok b => simp [_download_checksums_text, h]
    | httpError code =>
        simp only [_download_checksums_text, h]
        by_cases h4 : code = 404
        · subst h4; simp
        · by_cases h3 : code = 403
          · subst h3; simp
          · simp [h4, h3]
    | urlError => simp [_download_checksums_text, h]
  · intro b hb
    simp [_download_checksums_text, hb]
  · intro code hc h4 h3
    simp [_download_checksums_text, hc, h4, h3]

/-- Witness for C5: a 500 on the manifest URL propagates as a fatal error. -/
theorem c5_download_checksums_witness :
    _download_checksums_text
        ⟨"Linux", "x86_64", false, "/h", "/d", (fun _ => none),
         (fun _ => HttpResp.httpError 500), fun _ => "h"⟩ "v1.0.0" "B" =
      .error (.httpError 500 (checksums_url "B" "v1.0.0")) :=
  (c5_download_checksums_characterization
      ⟨"Linux", "x86_64", false, "/h", "/d", (fun _ => none),
       (fun _ => HttpResp.httpError 500), fun _ => "h"⟩ "v1.0.0" "B").2.2
    500 rfl (by decide) (by decide)

/-! ## Claim C7 -/

/-- C7 as frozen is false on the code: the machine string `"AMD64"` (the
value `platform.machine()` reports on 64-bit Windows) is in none of the
three literal groups, so the claim requires an `UnsupportedPlatform`
failure, but `detect_target` lowercases the machine string before comparing
and succeeds with arch `x86_64`. -/
theorem c7_counterexample :
    (["arm64", "aarch64", "x86_64", "amd64", "i386", "i686", "x86"].contains "AMD64")
      = false ∧
    detect_target "Windows" "AMD64" = .ok ⟨"Windows", "x86_64", ".zip"⟩ :=
  ⟨rfl, rfl⟩

theorem contains_pair (a b x : String) : ([a, b].contains x) = (x == a || x == b) := by
  cases h : x == a
  · simp only [List.contains, List.elem, h]
    cases x == b <;> rfl
  · simp [List.contains, List.elem, h]

theorem contains_triple (a b c x : String) :
    ([a, b, c].contains x) = (x == a || x == b || x == c) := by
  cases ha : x == a
  · cases hb : x == b
    · simp only [List.contains, List.elem, ha, hb]
      cases x == c <;> simp
    · simp [List.contains, List.elem, ha, hb]
  · simp [List.contains, List.elem, ha]

/-- C7 amended: `detect()` returns the documented arch tag and archive
format, and fails with `UnsupportedPlatform` otherwise, with the machine
string compared against the groups after lowercasing (the code's
behaviour); equivalently, `detect_target` coincides with the spec-shaped
table `detect_target_spec` on every input. -/
theorem c7_detect_target_eq_spec (sysname machineRaw : String) :
    detect_target sysname machineRaw = detect_target_spec sysname machineRaw := by
  unfold detect_target detect_target_spec
  cases hOS : (sysname == "Darwin" || sysname == "Linux" || sysname == "Windows")
  · simp [hOS]
  · simp only [hOS, Bool.not_true, Bool.false_eq_true, if_false, if_true, archGroups,
      List.find?, contains_pair, contains_triple]
    cases h1 : (pyLower machineRaw == "arm64" || pyLower machineRaw == "aarch64") <;>
      cases h2 : (pyLower machineRaw == "x86_64" || pyLower machineRaw == "amd64") <;>
        cases h3 : (pyLower machineRaw == "i386" || pyLower machineRaw == "i686" ||
            pyLower machineRaw == "x86") <;>
          simp [h1, h2, h3]

/-! ## Claim C6 -/

/-- C6: the manifest parser returns the lowercase value after the `sha256:`
prefix on the successor of the first (trimmed, non-blank) line equal to the
filename; else falls back to the first legacy line whose last token is the
filename and whose first token is exactly 64 hex characters, lowercased;
else absent — i.e. `_expected_sha_from_checksums` coincides with the
spec-shaped `extract_digest_spec` on every input. -/
theorem c6_extract_digest_eq_spec (text filename : String) :
    _expected_sha_from_checksums text filename = extract_digest_spec text filename := by
  unfold _expected_sha_from_checksums extract_digest_spec
  dsimp only
  simp only [blockScan_eq_zip_find]
  cases hf : ((stripLines text).zip (stripLines text).tail).find?
      (fun p => p.1 == filename && strStartsWith p.2 "sha256:") <;>
    simp [hf]

/-! ## Claim C3 -/

/-- C3 as frozen is false on the code: a zip archive whose only entry is the
directory `neo4j-mcp.exe/` (no regular-file entry at all) must, per the
claim, fail with `BinaryNotFoundInArchive`; the zip branch instead matches
the directory over `zf.namelist()` and succeeds, extracting its empty
data. -/
theorem c3_counterexample :
    ([⟨"neo4j-mcp.exe/", false, ""⟩] : List ArchiveEntry).all (fun e => !e.isFile) = true ∧
    _extract_archive [("a.zip", Content.zipArchive [⟨"neo4j-mcp.exe/", false, ""⟩])]
        "a.zip" "out" ⟨"Windows", "x86_64", ".zip"⟩ =
      .ok [("out", Content.bytes ""),
           ("a.zip", Content.zipArchive [⟨"neo4j-mcp.exe/", false, ""⟩])] :=
  ⟨rfl, rfl⟩

/-- C3 amended: extraction selects by base filename, preferring the exact
`extracted_binary_name` match and falling back to a literal `neo4j-mcp` /
`neo4j-mcp.exe`, failing with `BinaryNotFoundInArchive` when nothing
matches, and with `UnsupportedArchiveFormat` for extensions other than
`.tar.gz`/`.zip` — with the selection pool being the regular-file entries
for tar archives but **all** entries (directories included) for zip
archives; i.e. `_extract_archive` coincides with the spec-shaped
`_extract_archive_spec` on every input. -/
theorem c3_extract_archive_eq_spec (fs : FS) (archive out_bin : String) (t : Target) :
    _extract_archive fs archive out_bin t = _extract_archive_spec fs archive out_bin t := by
  unfold _extract_archive _extract_archive_spec spec_pick
  cases hext : (t.archive_ext == ".tar.gz")
  · simp only [hext, Bool.false_eq_true, if_false]
    cases hzip : (t.archive_ext == ".zip")
    · simp [hzip]
    · simp only [hzip, if_true]
      cases hc : fsGet fs archive with
      | none => simp
      | some c =>
          cases c with
          | bytes d => simp
          | tarGz es => simp
          | jsonTag tg => simp
          | zipArchive entries =>
              dsimp only
              have hm1 := find?_map_name
                (fun n => pyPathName n == t.extracted_binary_name) entries
              cases h1 : entries.find?
                  (fun e => pyPathName e.name == t.extracted_binary_name) with
              | some e0 =>
                  have hd := find?_by_name
                    (fun n => pyPathName n == t.extracted_binary_name) entries e0 h1
                  rw [hm1, h1]
                  simp [hd]
              | none =>
                  rw [hm1, h1]
                  have hm2 := find?_map_name
                    (fun n => pyPathName n == "neo4j-mcp.exe" ||
                      pyPathName n == "neo4j-mcp") entries
                  have hcongr := find?_pred_congr
                    (fun e => pyPathName e.name == "neo4j-mcp.exe" ||
                      pyPathName e.name == "neo4j-mcp")
                    (fun e => pyPathName e.name == "neo4j-mcp" ||
                      pyPathName e.name == "neo4j-mcp.exe")
                    (fun e => Bool.or_comm _ _) entries
                  cases h2 : entries.find?
                      (fun e => pyPathName e.name == "neo4j-mcp.exe" ||
                        pyPathName e.name == "neo4j-mcp") with
                  | some e1 =>
                      have hd2 := find?_by_name
                        (fun n => pyPathName n == "neo4j-mcp.exe" ||
                          pyPathName n == "neo4j-mcp") entries e1 h2
                      rw [hm2, h2]
                      rw [h2] at hcongr
                      simp [hd2, ← hcongr]
                  | none =>
                      rw [hm2, h2]
                      rw [h2] at hcongr
                      simp [← hcongr]
  · simp only [hext, if_true]
    cases hc : fsGet fs archive with
    | none => simp
    | some c =>
        cases c with
        | bytes d => simp
        | zipArchive es => simp
        | jsonTag tg => simp
        | tarGz entries =>
            dsimp only
            cases h1 : (entries.filter (fun m => m.isFile)).find?
                (fun m => pyPathName m.name == t.extracted_binary_name) with
            | some m => simp [h1, Option.orElse]
            | none =>
                cases h2 : (entries.filter (fun m => m.isFile)).find?
                    (fun m => pyPathName m.name == "neo4j-mcp" ||
                      pyPathName m.name == "neo4j-mcp.exe") with
                | some m => simp [h1, h2, Option.orElse]
                | none => simp [h1, h2, Option.orElse]

/-! ## Claim C2 -/

/-- C2 as frozen is false on the code: starting from a filesystem holding an
old binary at the canonical install name, interrupting the install op
sequence before its final rename can find the canonical name empty — the
source unlinks the destination just before renaming, so the previously
present binary is not always unchanged. -/
theorem c2_counterexample :
    fsGet [("/bin/neo4j-mcp", Content.bytes "OLD")] "/bin/neo4j-mcp" =
      some (Content.bytes "OLD") ∧
    ((interruptedStates [("/bin/neo4j-mcp", Content.bytes "OLD")]
        ((atomic_replace_ops "/bin/neo4j-mcp" (Content.bytes "NEW")).dropLast)).any
      (fun fs => (fsGet fs "/bin/neo4j-mcp").isNone)) = true :=
  ⟨rfl, rfl⟩

/-- C2 amended: for the temp-then-replace op sequence that produces the
canonical extracted-binary and installed-binary files, interruption at any
point leaves the canonical name holding either its previous content, or
nothing (it is unlinked immediately before the final rename), or the full
new payload — never a partially written file — and no path other than the
canonical name and its `.tmp` sibling is touched. -/
theorem c2_atomic_replace_interrupted (dest data : String) (fs0 fs : FS)
    (hmem : fs ∈ interruptedStates fs0 (atomic_replace_ops dest (Content.bytes data))) :
    (fsGet fs dest = fsGet fs0 dest ∨ fsGet fs dest = none ∨
      fsGet fs dest = some (Content.bytes data)) ∧
    (∀ p, p ≠ dest → p ≠ withTmpSuffix dest → fsGet fs p = fsGet fs0 p) := by
  have htmp : withTmpSuffix dest ≠ dest := withTmpSuffix_ne dest
  simp only [atomic_replace_ops, interruptedStates, opStates, byteStages, applyOp,
    List.mem_cons, List.mem_append, List.mem_map, List.mem_range,
    List.mem_singleton, List.not_mem_nil, or_false] at hmem
  have hren : fsGet (fsRemove (fsSet fs0 (withTmpSuffix dest) (Content.bytes data)) dest)
      (withTmpSuffix dest) = some (Content.bytes data) := by
    rw [fsGet_remove_ne _ _ _ htmp, fsGet_set_self]
  rcases hmem with rfl | ⟨a, ⟨i, hi, rfl⟩, rfl⟩ | rfl | (rfl | rfl) | rfl | (rfl | rfl) | rfl
  all_goals
    first
    | -- states where a (possibly byte-stage) write to the tmp sibling happened
      exact ⟨Or.inl (fsGet_set_ne _ _ _ _ (Ne.symm htmp)),
        fun p _ hp2 => fsGet_set_ne _ _ _ _ hp2⟩
    | -- the untouched initial state
      exact ⟨Or.inl rfl, fun p _ _ => rfl⟩
    | -- states after the destination was unlinked
      exact ⟨Or.inr (Or.inl (fsGet_remove_self _ _)),
        fun p hp1 hp2 => by
          rw [fsGet_remove_ne _ _ _ hp1, fsGet_set_ne _ _ _ _ hp2]⟩
    | -- states after the final rename
      (rw [hren]
       exact ⟨Or.inr (Or.inr (fsGet_set_self _ _ _)),
        fun p hp1 hp2 => by
          rw [fsGet_set_ne _ _ _ _ hp1, fsGet_remove_ne _ _ _ hp2,
            fsGet_remove_ne _ _ _ hp1, fsGet_set_ne _ _ _ _ hp2]⟩)

/-- Witness for C2: a mid-write interrupted state of an install of payload
`"NEW"` over an old binary — only the `.tmp` sibling was touched. -/
theorem c2_witness :
    fsGet [("/cache/neo4j-mcp.tmp", Content.bytes "NE"),
           ("/cache/neo4j-mcp", Content.bytes "OLD")] "/cache/other" =
      fsGet [("/cache/neo4j-mcp", Content.bytes "OLD")] "/cache/other" :=
  (c2_atomic_replace_interrupted "/cache/neo4j-mcp" "NEW"
      [("/cache/neo4j-mcp", Content.bytes "OLD")]
      [("/cache/neo4j-mcp.tmp", Content.bytes "NE"),
       ("/cache/neo4j-mcp", Content.bytes "OLD")]
      (by decide)).2 "/cache/other" (by decide) (by decide)

/-! ## Claim C8 -/

/-- C8: with an explicitly resolved version whose extracted binary is
already cached and without force, `install_binary` performs no network
request at all (the request trace is empty), changes nothing on disk except
the installed binary and its `.tmp` sibling (no archive download, no
extraction), and still installs by copying the cached binary, returning
`(final install path, version, cached extracted path)`. -/
theorem c8_cache_hit (w : World) (fs0 : FS) (t : Target) (v repo base_url idir : String)
    (c : Content) (verify : Bool)
    (hDet : detect_target w.os_name w.machine = .ok t)
    (hEnvV : pyTruthy (w.env "NEO4J_MCP_VERSION") = false)
    (hv : v ≠ "")
    (hCache : fsGet fs0 (extracted_path w.dataRoot v t) = some c) :
    install_binary w fs0 (some v) repo base_url verify false (some idir) =
      (.ok (joinPath idir t.extracted_binary_name, v, extracted_path w.dataRoot v t),
       runOps fs0 (atomic_replace_ops (joinPath idir t.extracted_binary_name) c), []) ∧
    fsGet (runOps fs0 (atomic_replace_ops (joinPath idir t.extracted_binary_name) c))
        (joinPath idir t.extracted_binary_name) = some c ∧
    (∀ p, p ≠ joinPath idir t.extracted_binary_name →
      p ≠ withTmpSuffix (joinPath idir t.extracted_binary_name) →
      fsGet (runOps fs0 (atomic_replace_ops (joinPath idir t.extracted_binary_name) c)) p =
        fsGet fs0 p) := by
  have hres := resolve_version_env_falsy_some w v repo hEnvV hv
  refine ⟨?_, fsGet_runOps_atomic_self _ _ _, fun p h1 h2 => fsGet_runOps_atomic_ne _ _ _ _ h1 h2⟩
  unfold install_binary install_phase
  simp [hDet, hres, hCache]

/-- Witness for C8: a concrete cache-hit run touching no network. -/
theorem c8_cache_hit_witness :
    install_binary
        ⟨"Linux", "x86_64", false, "/h", "/d", (fun _ => none), (fun _ => .urlError),
         (fun _ => "x")⟩
        [("/d/versions/v2.0.0/neo4j-mcp", Content.bytes "BIN")]
        (some "v2.0.0") "neo4j/mcp" "B" true false (some "/bin") =
      (.ok (joinPath "/bin" (Target.extracted_binary_name ⟨"Linux", "x86_64", ".tar.gz"⟩),
            "v2.0.0",
            extracted_path "/d" "v2.0.0" ⟨"Linux", "x86_64", ".tar.gz"⟩),
       runOps [("/d/versions/v2.0.0/neo4j-mcp", Content.bytes "BIN")]
         (atomic_replace_ops
           (joinPath "/bin" (Target.extracted_binary_name ⟨"Linux", "x86_64", ".tar.gz"⟩))
           (Content.bytes "BIN")), []) :=
  (c8_cache_hit
      ⟨"Linux", "x86_64", false, "/h", "/d", (fun _ => none), (fun _ => .urlError),
       (fun _ => "x")⟩
      [("/d/versions/v2.0.0/neo4j-mcp", Content.bytes "BIN")]
      ⟨"Linux", "x86_64", ".tar.gz"⟩ "v2.0.0" "neo4j/mcp" "B" "/bin"
      (Content.bytes "BIN") true rfl rfl (by decide) rfl).1

/-! ## Claim C1 -/

/-- C1 as frozen is false on the code: when a stale archive from an earlier
run already sits at the canonical archive path, a failing verification still
leaves that file there — only the temp download is deleted — so "no archive
file exists at the canonical path" does not hold after the failure.  Here
the full run returns the checksum-mismatch error yet the canonical archive
path still holds the stale file. -/
theorem c1_counterexample :
    install_binary
        ⟨"Linux", "x86_64", false, "/h", "/d", (fun _ => none),
         (fun u =>
            if u == "B/v1.0.0/neo4j-mcp_Linux_x86_64.tar.gz" then .ok (.bytes "AD")
            else if u == "B/v1.0.0/neo4j-mcp_1.0.0_checksums.txt" then
              .ok (.bytes "neo4j-mcp_Linux_x86_64.tar.gz\nsha256:ABCD")
            else .urlError),
         (fun _ => "0f00")⟩
        [("/d/versions/v1.0.0/neo4j-mcp_Linux_x86_64.tar.gz", Content.bytes "OLD")]
        (some "v1.0.0") "neo4j/mcp" "B" true false (some "/bin") =
      (.error (.checksumMismatch
         (checksum_mismatch_msg "abcd" "0f00" "neo4j-mcp_Linux_x86_64.tar.gz"
           "B/v1.0.0/neo4j-mcp_Linux_x86_64.tar.gz")),
       [("/d/versions/v1.0.0/neo4j-mcp_Linux_x86_64.tar.gz", Content.bytes "OLD")],
       ["B/v1.0.0/neo4j-mcp_Linux_x86_64.tar.gz",
        "B/v1.0.0/neo4j-mcp_1.0.0_checksums.txt"]) ∧
    fsGet [("/d/versions/v1.0.0/neo4j-mcp_Linux_x86_64.tar.gz", Content.bytes "OLD")]
        (archive_path "/d" "v1.0.0" ⟨"Linux", "x86_64", ".tar.gz"⟩) =
      some (Content.bytes "OLD") :=
  ⟨rfl, rfl⟩

/-- C1 amended: under the claim's scenario the run fails with
`ChecksumMismatch` whose message reports the expected digest, the actual
digest, the asset name and the download URL (in the source's exact format);
the temp download is deleted; and the canonical archive path is unchanged
from before the run — in particular, if no archive existed there before the
run, none exists after (a stale archive from an earlier run may remain). -/
theorem c1_checksum_mismatch (w : World) (fs0 : FS) (t : Target)
    (v repo base_url idir text expected : String) (body : Content) (force : Bool)
    (hDet : detect_target w.os_name w.machine = .ok t)
    (hEnvV : pyTruthy (w.env "NEO4J_MCP_VERSION") = false)
    (hv : v ≠ "")
    (hDl : (!(fsGet fs0 (extracted_path w.dataRoot v t)).isSome || force) = true)
    (hSkip : pyTruthy (w.env "NEO4J_MCP_SKIP_VERIFY") = false)
    (hBody : w.http (base_url ++ "/" ++ v ++ "/" ++ t.asset_name) = .ok body)
    (hMan : w.http (checksums_url base_url v) = .ok (.bytes text))
    (hText : text ≠ "")
    (hExp : _expected_sha_from_checksums text t.asset_name = some expected)
    (hExpNe : expected ≠ "")
    (hMis : (pyLower (w.sha256 body) != pyLower expected) = true) :
    install_binary w fs0 (some v) repo base_url true force (some idir) =
      (.error (.checksumMismatch
         (checksum_mismatch_msg expected (w.sha256 body) t.asset_name
           (base_url ++ "/" ++ v ++ "/" ++ t.asset_name))),
       fsRemove fs0 (withTmpSuffix (archive_path w.dataRoot v t)),
       [base_url ++ "/" ++ v ++ "/" ++ t.asset_name, checksums_url base_url v]) ∧
    fsGet (fsRemove fs0 (withTmpSuffix (archive_path w.dataRoot v t)))
        (archive_path w.dataRoot v t) = fsGet fs0 (archive_path w.dataRoot v t) ∧
    fsGet (fsRemove fs0 (withTmpSuffix (archive_path w.dataRoot v t)))
        (withTmpSuffix (archive_path w.dataRoot v t)) = none := by
  have hres := resolve_version_env_falsy_some w v repo hEnvV hv
  have hdc : _download_checksums_text w v base_url = .ok (some text) := by
    simp [_download_checksums_text, hMan, contentText]
  have hsha : _sha256_file w
      (fsSet (fsRemove fs0 (withTmpSuffix (archive_path w.dataRoot v t)))
        (withTmpSuffix (archive_path w.dataRoot v t)) body)
      (withTmpSuffix (archive_path w.dataRoot v t)) = .ok (w.sha256 body) := by
    simp [_sha256_file, fsGet_set_self]
  have hMisP : ¬ (pyLower (w.sha256 body) = pyLower expected) := by
    intro he
    rw [he] at hMis
    simp at hMis
  refine ⟨?_, fsGet_remove_ne _ _ _ (withTmpSuffix_ne _).symm, fsGet_remove_self _ _⟩
  unfold install_binary download_and_extract
  simp only [hDet, hres, hDl, if_true]
  simp only [hBody, hdc, hSkip, pyTruthy_some_of_ne text hText, hsha]
  simp only [hExp, Option.getD_some]
  simp [pyTruthy_some_of_ne expected hExpNe, hMisP, fsRemove_set_self, fsRemove_idem]

/-- Witness for C1: a concrete mismatching download with an empty starting
filesystem; afterwards neither the archive nor its temp sibling exists. -/
theorem c1_checksum_mismatch_witness :
    install_binary
        ⟨"Linux", "x86_64", false, "/h", "/d", (fun _ => none),
         (fun u =>
            if u == "B/v1.0.0/neo4j-mcp_Linux_x86_64.tar.gz" then .ok (.bytes "AD")
            else if u == "B/v1.0.0/neo4j-mcp_1.0.0_checksums.txt" then
              .ok (.bytes "neo4j-mcp_Linux_x86_64.tar.gz\nsha256:ABCD")
            else .urlError),
         (fun _ => "0f00")⟩
        [] (some "v1.0.0") "neo4j/mcp" "B" true false (some "/bin") =
      (.error (.checksumMismatch
         (checksum_mismatch_msg "abcd" "0f00"
           (Target.asset_name ⟨"Linux", "x86_64", ".tar.gz"⟩)
           ("B" ++ "/" ++ "v1.0.0" ++ "/" ++
             Target.asset_name ⟨"Linux", "x86_64", ".tar.gz"⟩))),
       fsRemove [] (withTmpSuffix (archive_path "/d" "v1.0.0" ⟨"Linux", "x86_64", ".tar.gz"⟩)),
       ["B" ++ "/" ++ "v1.0.0" ++ "/" ++ Target.asset_name ⟨"Linux", "x86_64", ".tar.gz"⟩,
        checksums_url "B" "v1.0.0"]) :=
  (c1_checksum_mismatch
      ⟨"Linux", "x86_64", false, "/h", "/d", (fun _ => none),
       (fun u =>
          if u == "B/v1.0.0/neo4j-mcp_Linux_x86_64.tar.gz" then .ok (.bytes "AD")
          else if u == "B/v1.0.0/neo4j-mcp_1.0.0_checksums.txt" then
            .ok (.bytes "neo4j-mcp_Linux_x86_64.tar.gz\nsha256:ABCD")
          else .urlError),
       (fun _ => "0f00")⟩
      [] ⟨"Linux", "x86_64", ".tar.gz"⟩ "v1.0.0" "neo4j/mcp" "B" "/bin"
      "neo4j-mcp_Linux_x86_64.tar.gz\nsha256:ABCD" "abcd" (.bytes "AD") false
      rfl rfl (by decide) rfl rfl rfl rfl (by decide) rfl (by decide) rfl).1

/-! ## Claim C10 -/

/-- C10: if the manifest fetch succeeds with an empty body, the empty string
is falsy, verification is silently skipped, and the whole run has exactly
the same outcome (result, final filesystem, request trace) as the run
against a host answering 404 for the manifest URL — a reachable but empty
checksums file never triggers a verification failure. -/
theorem c10_empty_manifest_as_absent (w : World) (fs0 : FS) (t : Target)
    (v repo base_url idir : String) (force : Bool)
    (hDet : detect_target w.os_name w.machine = .ok t)
    (hEnvV : pyTruthy (w.env "NEO4J_MCP_VERSION") = false)
    (hv : v ≠ "")
    (hDl : (!(fsGet fs0 (extracted_path w.dataRoot v t)).isSome || force) = true)
    (hSkip : pyTruthy (w.env "NEO4J_MCP_SKIP_VERIFY") = false)
    (hMan : w.http (checksums_url base_url v) = .ok (.bytes ""))
    (hNe : base_url ++ "/" ++ v ++ "/" ++ t.asset_name ≠ checksums_url base_url v) :
    install_binary w fs0 (some v) repo base_url true force (some idir) =
      install_binary
        { w with http := fun u =>
            if u == checksums_url base_url v then .httpError 404 else w.http u }
        fs0 (some v) repo base_url true force (some idir) := by
  have hres := resolve_version_env_falsy_some w v repo hEnvV hv
  have hres' : resolve_version
      { w with http := fun u =>
          if u == checksums_url base_url v then .httpError 404 else w.http u }
      (some v) repo = (.ok v, []) :=
    resolve_version_env_falsy_some _ v repo hEnvV hv
  have hbe : ((base_url ++ "/" ++ v ++ "/" ++ t.asset_name) == checksums_url base_url v)
      = false := by
    rw [beq_eq_false_iff_ne]
    exact hNe
  have hdc : _download_checksums_text w v base_url = .ok (some "") := by
    simp [_download_checksums_text, hMan, contentText]
  have hdc' : _download_checksums_text
      { w with http := fun u =>
          if u == checksums_url base_url v then .httpError 404 else w.http u }
      v base_url = .ok none := by
    simp [_download_checksums_text]
  unfold install_binary download_and_extract
  simp only [hDet, hres, hres', hDl, if_true, hSkip, hdc, hdc']
  cases hB : w.http (base_url ++ "/" ++ v ++ "/" ++ t.asset_name) with
  | httpError code => simp [hB, hNe]
  | urlError => simp [hB, hNe]
  | ok body => simp [hB, hNe, pyTruthy]

/-- Witness for C10: a concrete run whose manifest body is empty equals the
same run against a 404-answering host. -/
theorem c10_empty_manifest_witness :
    install_binary
        ⟨"Linux", "x86_64", false, "/h", "/d", (fun _ => none),
         (fun u =>
            if u == "B/v1.0.0/neo4j-mcp_Linux_x86_64.tar.gz" then
              .ok (.tarGz [⟨"neo4j-mcp", true, "BITS"⟩])
            else if u == "B/v1.0.0/neo4j-mcp_1.0.0_checksums.txt" then .ok (.bytes "")
            else .urlError),
         (fun _ => "0f00")⟩
        [] (some "v1.0.0") "neo4j/mcp" "B" true false (some "/bin") =
      install_binary
        { (⟨"Linux", "x86_64", false, "/h", "/d", (fun _ => none),
           (fun u =>
              if u == "B/v1.0.0/neo4j-mcp_Linux_x86_64.tar.gz" then
                .ok (.tarGz [⟨"neo4j-mcp", true, "BITS"⟩])
              else if u == "B/v1.0.0/neo4j-mcp_1.0.0_checksums.txt" then .ok (.bytes "")
              else .urlError),
           (fun _ => "0f00")⟩ : World) with
          http := fun u =>
            if u == checksums_url "B" "v1.0.0" then .httpError 404
            else
              (⟨"Linux", "x86_64", false, "/h", "/d", (fun _ => none),
               (fun u' =>
                  if u' == "B/v1.0.0/neo4j-mcp_Linux_x86_64.tar.gz" then
                    .ok (.tarGz [⟨"neo4j-mcp", true, "BITS"⟩])
                  else if u' == "B/v1.0.0/neo4j-mcp_1.0.0_checksums.txt" then .ok (.bytes "")
                  else .urlError),
               (fun _ => "0f00")⟩ : World).http u }
        [] (some "v1.0.0") "neo4j/mcp" "B" true false (some "/bin") :=
  c10_empty_manifest_as_absent
    ⟨"Linux", "x86_64", false, "/h", "/d", (fun _ => none),
     (fun u =>
        if u == "B/v1.0.0/neo4j-mcp_Linux_x86_64.tar.gz" then
          .ok (.tarGz [⟨"neo4j-mcp", true, "BITS"⟩])
        else if u == "B/v1.0.0/neo4j-mcp_1.0.0_checksums.txt" then .ok (.bytes "")
        else .urlError),
     (fun _ => "0f00")⟩
    [] ⟨"Linux", "x86_64", ".tar.gz"⟩ "v1.0.0" "neo4j/mcp" "B" "/bin" false
    rfl rfl (by decide) rfl rfl rfl (by decide)

end Installer
